import Mathlib

set_option maxRecDepth 20000

/-!
# Shallow embedding of the DAO factory contract suite

This file embeds, in Lean, the Solidity contracts of the repository that the
specification describes: the genesis orchestrator `DAOFactoryUUPS.deployDao`
(`contracts/factory/DAOFactoryUUPS.sol`), the soulbound membership token
`MembershipNFTImplementation` (`contracts/token/MembershipNFTImplementation.sol`),
the module registry `KernelImplementation`, and the upgradeable treasury
`SimpleTreasuryUpgradeable`.

Modelling conventions:

* Ethereum addresses are natural numbers; `0` is the zero address.
* A reverting call is `none`; a successful call returns the post state in
  `some`.  The EVM gives the whole `deployDao` transaction all-or-nothing
  atomicity, so a revert anywhere yields `none` for the whole call and no
  state survives.
* `bytes32` role identifiers of the timelock are the inductive `TLRole`
  (the OpenZeppelin constants are distinct hashes); `bytes32` kernel module
  keys are represented by the strings they hash (`keccak256` is collision
  free on the four distinct tag strings).
* Machine integers are `Nat`/`Int`; the one place the contracts bound a
  value (the `uint208` checkpoint bound in `_writeCheckpoint`) is modelled
  with an explicit `2 ^ 208 - 1` check, and the checked `uint256` decrement
  in `removeMember` with an explicit underflow check.
* CREATE-allocated proxy addresses are passed to `deployDao` as explicit
  parameters; on chain they are fresh non-zero addresses, which appears as
  hypotheses of the theorems.
* External accounts are plain addresses without code: the
  `onERC721Received` callback of `_safeMint` is not modelled (it only runs
  for contract receivers), and the ERC-721 approval bookkeeping of
  `super._update` is elided, which only makes the model accept more calls
  than the contract does; every revert proved here is a revert of the code.
-/

/-- Ethereum addresses, with `0` the zero address. -/
abbrev Addr := Nat

/-! ## Timelock roles and state

`TimelockControllerImplementation` (file `TimelockAndGovernorImplementation.sol`)
wraps the OpenZeppelin `TimelockControllerUpgradeable`, which the spec treats
as a trusted library for role semantics. -/

/-- The four distinct `bytes32` role constants of the OpenZeppelin timelock. -/
inductive TLRole where
  | proposer
  | executor
  | canceller
  | defaultAdmin
deriving DecidableEq, Repr

/-- AccessControl storage plus the Ownable owner and kernel pointer of the
timelock proxy. -/
structure TimelockState where
  minDelay : Nat
  roles : TLRole → Addr → Bool
  owner : Addr
  kernel : Addr

/-- Embeds `AccessControl._grantRole`: set membership of `account` in `r` (idempotent). -/
def grantRoleMap (roles : TLRole → Addr → Bool) (r : TLRole) (account : Addr) :
    TLRole → Addr → Bool :=
  fun r2 a2 => if r2 = r ∧ a2 = account then true else roles r2 a2

/-- Embeds `AccessControl._revokeRole`: clear membership of `account` in `r` (idempotent). -/
def revokeRoleMap (roles : TLRole → Addr → Bool) (r : TLRole) (account : Addr) :
    TLRole → Addr → Bool :=
  fun r2 a2 => if r2 = r ∧ a2 = account then false else roles r2 a2

/-- Modelled from the spec: `TimelockControllerImplementation.initialize` lives in
`contracts/governance/TimelockAndGovernorImplementation.sol`, which is not among
the available sources; the spec treats timelock role semantics as a trusted
library (OpenZeppelin `TimelockControllerUpgradeable`).  Initialization stores
the minimum delay, grants `DEFAULT_ADMIN_ROLE` to the timelock itself (the spec:
the timelock "self-administers") and to the optional `admin` argument (the spec:
the factory is "temporary admin"), grants `PROPOSER_ROLE` and `CANCELLER_ROLE`
to every listed proposer and `EXECUTOR_ROLE` to every listed executor, and
starts the Ownable owner at the admin so the later `transferOwnership` call of
the factory can succeed. -/
def timelockInitialize (self : Addr) (minDelaySeconds : Nat)
    (proposers executors : List Addr) (admin : Addr) : TimelockState :=
  { minDelay := minDelaySeconds
    roles := fun r a =>
      match r with
      | .proposer => proposers.contains a
      | .canceller => proposers.contains a
      | .executor => executors.contains a
      | .defaultAdmin => (a == self) || (admin != 0 && a == admin)
    owner := admin
    kernel := 0 }

/-- Embeds `AccessControl.grantRole`: only a holder of the admin role of `r`
(`DEFAULT_ADMIN_ROLE` for every timelock role) may grant. -/
def TimelockState.grantRole (st : TimelockState) (caller : Addr) (r : TLRole)
    (account : Addr) : Option TimelockState :=
  if st.roles .defaultAdmin caller then
    some { st with roles := grantRoleMap st.roles r account }
  else none

/-- Embeds `AccessControl.revokeRole`: only a holder of the admin role of `r` may revoke. -/
def TimelockState.revokeRole (st : TimelockState) (caller : Addr) (r : TLRole)
    (account : Addr) : Option TimelockState :=
  if st.roles .defaultAdmin caller then
    some { st with roles := revokeRoleMap st.roles r account }
  else none

/-- Modelled from the spec: `setKernel` of the timelock wrapper ("each module
learns the kernel address"), following the same shape as the `setKernel`
functions visible in the membership and treasury sources: `onlyOwner`, reject
the zero address, store the kernel. -/
def TimelockState.setKernel (st : TimelockState) (caller newKernel : Addr) :
    Option TimelockState :=
  if caller = st.owner then
    if newKernel = 0 then none else some { st with kernel := newKernel }
  else none

/-- OpenZeppelin `Ownable.transferOwnership`: `onlyOwner`, new owner non-zero. -/
def TimelockState.transferOwnership (st : TimelockState) (caller newOwner : Addr) :
    Option TimelockState :=
  if caller = st.owner then
    if newOwner = 0 then none else some { st with owner := newOwner }
  else none

/-! ## Membership NFT (`MembershipNFTImplementation.sol`) -/

/-- Storage of the membership NFT proxy.  `memberVotes a` and `totalVotes` are
the `latest()` values of the corresponding `Checkpoints.Trace208` traces. -/
structure NFTState where
  nextId : Nat
  memberCount : Nat
  isMember : Addr → Bool
  tokenIdOf : Addr → Nat
  memberVotes : Addr → Nat
  totalVotes : Nat
  ownerOf : Nat → Addr
  owner : Addr
  kernel : Addr

/-- Embeds `_writeCheckpoint`: bounds-checked push of `latest + delta` onto a trace;
returns the new latest value. -/
def writeCheckpoint (oldValue : Nat) (delta : Int) : Option Nat :=
  if 0 ≤ (oldValue : Int) + delta ∧ (oldValue : Int) + delta ≤ 2 ^ 208 - 1
  then some ((oldValue : Int) + delta).toNat else none

/-- Embeds `MembershipNFTImplementation._update`: revert when moving a token between
two non-zero addresses (soulbound guard), otherwise fall through to the
ERC-721 ownership write of `super._update`, returning the previous owner. -/
def NFTState.updateToken (st : NFTState) (toA : Addr) (tokenId : Nat)
    (_auth : Addr) : Option (Addr × NFTState) :=
  if st.ownerOf tokenId ≠ 0 ∧ toA ≠ 0 then none
  else
    some (st.ownerOf tokenId,
      { st with ownerOf := fun t => if t = tokenId then toA else st.ownerOf t })

/-- ERC-721 `transferFrom`: reject the zero receiver, run `_update` with the
caller as auth, and require that the declared sender was the owner. -/
def NFTState.transferFrom (st : NFTState) (caller fro toA : Addr) (tokenId : Nat) :
    Option NFTState :=
  if toA = 0 then none
  else
    match st.updateToken toA tokenId caller with
    | none => none
    | some (prev, st2) => if prev ≠ fro then none else some st2

/-- ERC-721 `_safeMint` (receiver callback elided): reject the zero receiver,
run `_update` from the zero address, and require the token was unowned. -/
def NFTState.safeMint (st : NFTState) (toA : Addr) (tokenId : Nat) :
    Option NFTState :=
  if toA = 0 then none
  else
    match st.updateToken toA tokenId 0 with
    | none => none
    | some (prev, st2) => if prev ≠ 0 then none else some st2

/-- ERC-721 `_burn`: run `_update` to the zero address and require the token
existed. -/
def NFTState.burn (st : NFTState) (tokenId : Nat) : Option NFTState :=
  match st.updateToken 0 tokenId 0 with
  | none => none
  | some (prev, st2) => if prev = 0 then none else some st2

/-- Embeds `MembershipNFTImplementation._addMember`: reject the zero address and
existing members, record membership, mint token `_nextId`, and push `+1`
checkpoints on the member trace and the total trace. -/
def NFTState.addMemberInternal (st : NFTState) (account : Addr) :
    Option NFTState :=
  if account = 0 then none
  else if st.isMember account then none
  else
    (NFTState.safeMint
      { st with
        nextId := st.nextId + 1
        isMember := fun a => if a = account then true else st.isMember a
        tokenIdOf := fun a => if a = account then st.nextId else st.tokenIdOf a
        memberCount := st.memberCount + 1 } account st.nextId).bind fun st2 =>
    (writeCheckpoint (st2.memberVotes account) 1).bind fun v =>
    (writeCheckpoint st2.totalVotes 1).bind fun tv =>
    some { st2 with
           memberVotes := fun a => if a = account then v else st2.memberVotes a
           totalVotes := tv }

/-- The minting loop of `MembershipNFTImplementation.initialize`. -/
def NFTState.addMembers : NFTState → List Addr → Option NFTState
  | st, [] => some st
  | st, a :: rest => (st.addMemberInternal a).bind fun st2 => st2.addMembers rest

/-- Embeds `MembershipNFTImplementation.initialize`: `__Ownable_init(admin)` (reverts
on the zero owner), fresh ERC-721 storage, `_nextId = 1`, then `_addMember`
for every entry of `initialMembers` in order. -/
def membershipInitialize (admin : Addr) (initialMembers : List Addr) :
    Option NFTState :=
  if admin = 0 then none
  else
    NFTState.addMembers
      { nextId := 1
        memberCount := 0
        isMember := fun _ => false
        tokenIdOf := fun _ => 0
        memberVotes := fun _ => 0
        totalVotes := 0
        ownerOf := fun _ => 0
        owner := admin
        kernel := 0 }
      initialMembers

/-- Embeds `MembershipNFTImplementation.addMember`: `onlyOwner`, then `_addMember`. -/
def NFTState.addMember (st : NFTState) (caller account : Addr) : Option NFTState :=
  if caller = st.owner then st.addMemberInternal account else none

/-- Embeds `MembershipNFTImplementation.removeMember`: `onlyOwner`, require membership,
clear the member records (with the checked `uint256` decrement), burn the
token, and push `-1` checkpoints on the member trace and the total trace. -/
def NFTState.removeMember (st : NFTState) (caller account : Addr) :
    Option NFTState :=
  if caller = st.owner then
    if st.isMember account then
      if st.memberCount = 0 then none
      else
        (NFTState.burn
          { st with
            tokenIdOf := fun a => if a = account then 0 else st.tokenIdOf a
            isMember := fun a => if a = account then false else st.isMember a
            memberCount := st.memberCount - 1 } (st.tokenIdOf account)).bind fun st2 =>
        (writeCheckpoint (st2.memberVotes account) (-1)).bind fun v =>
        (writeCheckpoint st2.totalVotes (-1)).bind fun tv =>
        some { st2 with
               memberVotes := fun a => if a = account then v else st2.memberVotes a
               totalVotes := tv }
    else none
  else none

/-- Embeds `MembershipNFTImplementation.getVotes`: latest member-trace value. -/
def NFTState.getVotes (st : NFTState) (account : Addr) : Nat :=
  st.memberVotes account

/-- Embeds `MembershipNFTImplementation.delegates`: always the zero address. -/
def NFTState.delegates (_st : NFTState) (_account : Addr) : Addr := 0

/-- Embeds `MembershipNFTImplementation.delegate`: always reverts ("delegation disabled"). -/
def NFTState.delegate (_st : NFTState) (_delegatee : Addr) : Option NFTState :=
  none

/-- Embeds `MembershipNFTImplementation.delegateBySig`: always reverts ("delegation disabled"). -/
def NFTState.delegateBySig (_st : NFTState) : Option NFTState :=
  none

/-- Embeds `MembershipNFTImplementation.setKernel`: `onlyOwner`, reject the zero
address, store the kernel. -/
def NFTState.setKernel (st : NFTState) (caller newKernel : Addr) :
    Option NFTState :=
  if caller = st.owner then
    if newKernel = 0 then none else some { st with kernel := newKernel }
  else none

/-- OpenZeppelin `Ownable.transferOwnership` on the membership proxy. -/
def NFTState.transferOwnership (st : NFTState) (caller newOwner : Addr) :
    Option NFTState :=
  if caller = st.owner then
    if newOwner = 0 then none else some { st with owner := newOwner }
  else none

/-! ## Treasury (`SimpleTreasuryUpgradeable.sol`) -/

/-- Storage of the treasury proxy (the ETH balance is held by the chain, not
by contract storage). -/
structure TreasuryState where
  owner : Addr
  kernel : Addr

/-- Embeds `SimpleTreasuryUpgradeable.initialize`: `__Ownable_init(admin)`. -/
def treasuryInitialize (admin : Addr) : Option TreasuryState :=
  if admin = 0 then none else some { owner := admin, kernel := 0 }

/-- Embeds `SimpleTreasuryUpgradeable.setKernel`: `onlyOwner`, non-zero kernel. -/
def TreasuryState.setKernel (st : TreasuryState) (caller newKernel : Addr) :
    Option TreasuryState :=
  if caller = st.owner then
    if newKernel = 0 then none else some { st with kernel := newKernel }
  else none

/-- OpenZeppelin `Ownable.transferOwnership` on the treasury proxy. -/
def TreasuryState.transferOwnership (st : TreasuryState) (caller newOwner : Addr) :
    Option TreasuryState :=
  if caller = st.owner then
    if newOwner = 0 then none else some { st with owner := newOwner }
  else none

/-! ## Governor -/

/-- Storage of the governor proxy, restricted to what the factory wiring
touches.  The voting machinery is the trusted OpenZeppelin governor. -/
structure GovernorState where
  owner : Addr
  kernel : Addr
  votesToken : Addr
  timelock : Addr

/-- Modelled from the spec: `DAOGovernorImplementation.initialize` lives in
`contracts/governance/TimelockAndGovernorImplementation.sol`, which is not
among the available sources.  Per the factory call site it receives the
temporary admin (the factory), the votes source, and the timelock; the spec
says the governor is one of the five modules whose ownership is later handed
to the timelock, so initialization starts the Ownable owner at the admin. -/
def governorInitialize (admin votesToken timelock : Addr) : Option GovernorState :=
  if admin = 0 then none
  else some { owner := admin, kernel := 0, votesToken := votesToken, timelock := timelock }

/-- Modelled from the spec: `setKernel` of the governor wrapper, same shape as
the `setKernel` functions visible in the membership and treasury sources. -/
def GovernorState.setKernel (st : GovernorState) (caller newKernel : Addr) :
    Option GovernorState :=
  if caller = st.owner then
    if newKernel = 0 then none else some { st with kernel := newKernel }
  else none

/-- OpenZeppelin `Ownable.transferOwnership` on the governor proxy. -/
def GovernorState.transferOwnership (st : GovernorState) (caller newOwner : Addr) :
    Option GovernorState :=
  if caller = st.owner then
    if newOwner = 0 then none else some { st with owner := newOwner }
  else none

/-! ## Kernel registry (`KernelImplementation`) -/

/-- Embeds `keccak256("MODULE_TIMELOCK")`, represented by the hashed tag string. -/
def MODULE_TIMELOCK : String := "MODULE_TIMELOCK"

/-- Embeds `keccak256("MODULE_GOVERNOR")`, represented by the hashed tag string. -/
def MODULE_GOVERNOR : String := "MODULE_GOVERNOR"

/-- Embeds `keccak256("MODULE_TOKEN")`, represented by the hashed tag string. -/
def MODULE_TOKEN : String := "MODULE_TOKEN"

/-- Embeds `keccak256("MODULE_TREASURY")`, represented by the hashed tag string. -/
def MODULE_TREASURY : String := "MODULE_TREASURY"

/-- Storage of the kernel proxy: the module registry and the Ownable owner. -/
structure KernelState where
  modules : String → Addr
  owner : Addr

/-- Embeds `KernelImplementation._set`: reject the zero proxy, record the module. -/
def kernelSet (st : KernelState) (key : String) (proxy : Addr) :
    Option KernelState :=
  if proxy = 0 then none
  else some { st with modules := fun k => if k = key then proxy else st.modules k }

/-- Embeds `KernelImplementation.initialize`: `__Ownable_init(timelock)` then `_set`
for the four module tags in source order. -/
def kernelInitialize (timelock governor token treasury : Addr) :
    Option KernelState :=
  if timelock = 0 then none
  else
    (kernelSet { modules := fun _ => 0, owner := timelock } MODULE_TIMELOCK timelock).bind fun st1 =>
    (kernelSet st1 MODULE_GOVERNOR governor).bind fun st2 =>
    (kernelSet st2 MODULE_TOKEN token).bind fun st3 =>
    kernelSet st3 MODULE_TREASURY treasury

/-! ## The factory (`DAOFactoryUUPS`) -/

/-- Events emitted by the factory contract itself: `DaoGenesis` is its only
event declaration, and line 122 of `DAOFactoryUUPS.sol` its only `emit`. -/
inductive FactoryEvent where
  | daoGenesis (timelock membershipNFT governor treasury kernel : Addr)
deriving DecidableEq, Repr

/-- Result of a successful `deployDao` call: the five returned proxy addresses,
the storage of every deployed proxy, and the event log of the factory. -/
structure DeployResult where
  tl : Addr
  nft : Addr
  governor : Addr
  treasury : Addr
  kernel : Addr
  tlState : TimelockState
  nftState : NFTState
  treasuryState : TreasuryState
  governorState : GovernorState
  kernelState : KernelState
  events : List FactoryEvent

/-- Embeds `DAOFactoryUUPS._initialMembersWithCaller`: require every entry non-zero;
if the caller already occurs, return the supplied list unchanged, otherwise
prepend the caller. -/
def initialMembersWithCaller (caller : Addr) (initialMembers : List Addr) :
    Option (List Addr) :=
  if initialMembers.any (fun m => m == 0) then none
  else if initialMembers.any (fun m => m == caller) then some initialMembers
  else some (caller :: initialMembers)

/-- The calls `deployDao` makes on the timelock proxy, in source order:
`setKernel` (line 97), the three role grants (lines 109-111), the ownership
handoff to the timelock itself (line 117) and the closing `revokeRole` of the
deployer (line 120). -/
def wireTimelock (tl0 : TimelockState) (factory caller tlAddr govAddr kerAddr : Addr) :
    Option TimelockState :=
  (tl0.setKernel factory kerAddr).bind fun tl1 =>
  (tl1.grantRole factory .proposer govAddr).bind fun tl2 =>
  (tl2.grantRole factory .executor 0).bind fun tl3 =>
  (tl3.grantRole factory .defaultAdmin tlAddr).bind fun tl4 =>
  (tl4.transferOwnership factory tlAddr).bind fun tl5 =>
  tl5.revokeRole factory .defaultAdmin caller

/-- The calls `deployDao` makes on the membership proxy after its initializer:
`setKernel` (line 98) and the ownership handoff (line 114). -/
def wireNFT (nft0 : NFTState) (factory tlAddr kerAddr : Addr) : Option NFTState :=
  (nft0.setKernel factory kerAddr).bind fun nft1 =>
  nft1.transferOwnership factory tlAddr

/-- The calls `deployDao` makes on the treasury proxy after its initializer:
`setKernel` (line 99) and the ownership handoff (line 115). -/
def wireTreasury (tre0 : TreasuryState) (factory tlAddr kerAddr : Addr) :
    Option TreasuryState :=
  (tre0.setKernel factory kerAddr).bind fun tre1 =>
  tre1.transferOwnership factory tlAddr

/-- The calls `deployDao` makes on the governor proxy after its initializer:
`setKernel` (line 100) and the ownership handoff (line 116). -/
def wireGovernor (gov0 : GovernorState) (factory tlAddr kerAddr : Addr) :
    Option GovernorState :=
  (gov0.setKernel factory kerAddr).bind fun gov1 =>
  gov1.transferOwnership factory tlAddr

/-- Embeds `DAOFactoryUUPS.deployDao`, executed by `factory` (the address of the
factory contract, `address(this)`) on behalf of `caller` (`msg.sender`).
The five fresh proxy addresses produced by CREATE are passed explicitly as
`tlAddr`, `nftAddr`, `treAddr`, `govAddr`, `kerAddr`.  The calls of the body
are grouped per target contract (`wireTimelock`, `wireNFT`, `wireTreasury`,
`wireGovernor`), each group keeping the source order of the calls on that
contract; the source interleaves the groups, but every call reads and writes
only the state of its own target, and the whole transaction reverts if any
call reverts, so the grouping leaves both the success condition and the final
states unchanged. -/
def deployDao (factory caller : Addr) (minDelaySeconds : Nat)
    (initialMembers : List Addr)
    (tlAddr nftAddr treAddr govAddr kerAddr : Addr) : Option DeployResult :=
  let tl0 := timelockInitialize tlAddr minDelaySeconds [] [] factory
  (initialMembersWithCaller caller initialMembers).bind fun members =>
  (membershipInitialize factory members).bind fun nft0 =>
  (treasuryInitialize factory).bind fun tre0 =>
  (governorInitialize factory nftAddr tlAddr).bind fun gov0 =>
  (kernelInitialize tlAddr govAddr nftAddr treAddr).bind fun ker0 =>
  (wireTimelock tl0 factory caller tlAddr govAddr kerAddr).bind fun tlF =>
  (wireNFT nft0 factory tlAddr kerAddr).bind fun nftF =>
  (wireTreasury tre0 factory tlAddr kerAddr).bind fun treF =>
  (wireGovernor gov0 factory tlAddr kerAddr).bind fun govF =>
  some { tl := tlAddr, nft := nftAddr, governor := govAddr, treasury := treAddr,
         kernel := kerAddr,
         tlState := tlF, nftState := nftF, treasuryState := treF,
         governorState := govF, kernelState := ker0,
         events := [FactoryEvent.daoGenesis tlAddr nftAddr govAddr treAddr kerAddr] }

/-! ## Inversion lemmas for the primitive calls -/

theorem tlSetKernel_inv {st st2 : TimelockState} {c k : Addr}
    (h : st.setKernel c k = some st2) :
    c = st.owner ∧ k ≠ 0 ∧ st2 = { st with kernel := k } := by
  unfold TimelockState.setKernel at h
  split at h
  next hc =>
    split at h
    next hk => exact absurd h (by simp)
    next hk => exact ⟨hc, hk, (Option.some.inj h).symm⟩
  next hc => exact absurd h (by simp)

theorem tlTransferOwnership_inv {st st2 : TimelockState} {c w : Addr}
    (h : st.transferOwnership c w = some st2) :
    c = st.owner ∧ w ≠ 0 ∧ st2 = { st with owner := w } := by
  unfold TimelockState.transferOwnership at h
  split at h
  next hc =>
    split at h
    next hk => exact absurd h (by simp)
    next hk => exact ⟨hc, hk, (Option.some.inj h).symm⟩
  next hc => exact absurd h (by simp)

theorem tlGrantRole_inv {st st2 : TimelockState} {c a : Addr} {r : TLRole}
    (h : st.grantRole c r a = some st2) :
    st.roles .defaultAdmin c = true ∧ st2 = { st with roles := grantRoleMap st.roles r a } := by
  unfold TimelockState.grantRole at h
  split at h
  next hc => exact ⟨hc, (Option.some.inj h).symm⟩
  next hc => exact absurd h (by simp)

theorem tlRevokeRole_inv {st st2 : TimelockState} {c a : Addr} {r : TLRole}
    (h : st.revokeRole c r a = some st2) :
    st.roles .defaultAdmin c = true ∧ st2 = { st with roles := revokeRoleMap st.roles r a } := by
  unfold TimelockState.revokeRole at h
  split at h
  next hc => exact ⟨hc, (Option.some.inj h).symm⟩
  next hc => exact absurd h (by simp)

theorem nftSetKernel_inv {st st2 : NFTState} {c k : Addr}
    (h : st.setKernel c k = some st2) :
    c = st.owner ∧ k ≠ 0 ∧ st2 = { st with kernel := k } := by
  unfold NFTState.setKernel at h
  split at h
  next hc =>
    split at h
    next hk => exact absurd h (by simp)
    next hk => exact ⟨hc, hk, (Option.some.inj h).symm⟩
  next hc => exact absurd h (by simp)

theorem nftTransferOwnership_inv {st st2 : NFTState} {c w : Addr}
    (h : st.transferOwnership c w = some st2) :
    c = st.owner ∧ w ≠ 0 ∧ st2 = { st with owner := w } := by
  unfold NFTState.transferOwnership at h
  split at h
  next hc =>
    split at h
    next hk => exact absurd h (by simp)
    next hk => exact ⟨hc, hk, (Option.some.inj h).symm⟩
  next hc => exact absurd h (by simp)

theorem treSetKernel_inv {st st2 : TreasuryState} {c k : Addr}
    (h : st.setKernel c k = some st2) :
    c = st.owner ∧ k ≠ 0 ∧ st2 = { st with kernel := k } := by
  unfold TreasuryState.setKernel at h
  split at h
  next hc =>
    split at h
    next hk => exact absurd h (by simp)
    next hk => exact ⟨hc, hk, (Option.some.inj h).symm⟩
  next hc => exact absurd h (by simp)

theorem treTransferOwnership_inv {st st2 : TreasuryState} {c w : Addr}
    (h : st.transferOwnership c w = some st2) :
    c = st.owner ∧ w ≠ 0 ∧ st2 = { st with owner := w } := by
  unfold TreasuryState.transferOwnership at h
  split at h
  next hc =>
    split at h
    next hk => exact absurd h (by simp)
    next hk => exact ⟨hc, hk, (Option.some.inj h).symm⟩
  next hc => exact absurd h (by simp)

theorem govSetKernel_inv {st st2 : GovernorState} {c k : Addr}
    (h : st.setKernel c k = some st2) :
    c = st.owner ∧ k ≠ 0 ∧ st2 = { st with kernel := k } := by
  unfold GovernorState.setKernel at h
  split at h
  next hc =>
    split at h
    next hk => exact absurd h (by simp)
    next hk => exact ⟨hc, hk, (Option.some.inj h).symm⟩
  next hc => exact absurd h (by simp)

theorem govTransferOwnership_inv {st st2 : GovernorState} {c w : Addr}
    (h : st.transferOwnership c w = some st2) :
    c = st.owner ∧ w ≠ 0 ∧ st2 = { st with owner := w } := by
  unfold GovernorState.transferOwnership at h
  split at h
  next hc =>
    split at h
    next hk => exact absurd h (by simp)
    next hk => exact ⟨hc, hk, (Option.some.inj h).symm⟩
  next hc => exact absurd h (by simp)

theorem treasuryInitialize_inv {admin : Addr} {st : TreasuryState}
    (h : treasuryInitialize admin = some st) :
    admin ≠ 0 ∧ st = { owner := admin, kernel := 0 } := by
  unfold treasuryInitialize at h
  split at h
  next hz => exact absurd h (by simp)
  next hz => exact ⟨hz, (Option.some.inj h).symm⟩

theorem governorInitialize_inv {admin vt tl : Addr} {st : GovernorState}
    (h : governorInitialize admin vt tl = some st) :
    admin ≠ 0 ∧
      st = { owner := admin, kernel := 0, votesToken := vt, timelock := tl } := by
  unfold governorInitialize at h
  split at h
  next hz => exact absurd h (by simp)
  next hz => exact ⟨hz, (Option.some.inj h).symm⟩

theorem kernelSet_inv {st st2 : KernelState} {key : String} {p : Addr}
    (h : kernelSet st key p = some st2) :
    p ≠ 0 ∧ st2 = { st with modules := fun k => if k = key then p else st.modules k } := by
  unfold kernelSet at h
  split at h
  next hz => exact absurd h (by simp)
  next hz => exact ⟨hz, (Option.some.inj h).symm⟩

theorem kernelInitialize_inv {tl gov tok tre : Addr} {st : KernelState}
    (h : kernelInitialize tl gov tok tre = some st) :
    tl ≠ 0 ∧ gov ≠ 0 ∧ tok ≠ 0 ∧ tre ≠ 0 ∧ st.owner = tl ∧
      st.modules MODULE_TIMELOCK = tl ∧ st.modules MODULE_GOVERNOR = gov ∧
      st.modules MODULE_TOKEN = tok ∧ st.modules MODULE_TREASURY = tre := by
  unfold kernelInitialize at h
  split at h
  · exact absurd h (by simp)
  · simp only [Option.bind_eq_some] at h
    obtain ⟨s1, h1, s2, h2, s3, h3, h4⟩ := h
    obtain ⟨htl, rfl⟩ := kernelSet_inv h1
    obtain ⟨hgov, rfl⟩ := kernelSet_inv h2
    obtain ⟨htok, rfl⟩ := kernelSet_inv h3
    obtain ⟨htre, rfl⟩ := kernelSet_inv h4
    exact ⟨htl, hgov, htok, htre, rfl, rfl, rfl, rfl, rfl⟩

theorem writeCheckpoint_some {old v : Nat} {d : Int}
    (h : writeCheckpoint old d = some v) :
    (v : Int) = (old : Int) + d ∧ 0 ≤ (old : Int) + d := by
  unfold writeCheckpoint at h
  split at h
  next hc =>
    obtain rfl := (Option.some.inj h).symm
    exact ⟨Int.toNat_of_nonneg hc.1, hc.1⟩
  next hc => exact absurd h (by simp)

theorem writeCheckpoint_plusOne {old v : Nat}
    (h : writeCheckpoint old 1 = some v) : v = old + 1 := by
  have h2 := (writeCheckpoint_some h).1
  omega

theorem writeCheckpoint_minusOne {old v : Nat}
    (h : writeCheckpoint old (-1) = some v) : 1 ≤ old ∧ v = old - 1 := by
  have h2 := writeCheckpoint_some h
  omega

theorem NFTState.updateToken_some {st st2 : NFTState} {toA prev : Addr}
    {tokenId : Nat} {auth : Addr}
    (h : st.updateToken toA tokenId auth = some (prev, st2)) :
    ¬(st.ownerOf tokenId ≠ 0 ∧ toA ≠ 0) ∧ prev = st.ownerOf tokenId ∧
      st2 = { st with ownerOf := fun t => if t = tokenId then toA else st.ownerOf t } := by
  unfold NFTState.updateToken at h
  split at h
  next hc => exact absurd h (by simp)
  next hc =>
    have h2 := Option.some.inj h
    exact ⟨hc, (congrArg Prod.fst h2).symm, (congrArg Prod.snd h2).symm⟩

theorem NFTState.safeMint_inv {st st2 : NFTState} {toA : Addr} {tokenId : Nat}
    (h : st.safeMint toA tokenId = some st2) :
    toA ≠ 0 ∧ st.ownerOf tokenId = 0 ∧
      st2 = { st with ownerOf := fun t => if t = tokenId then toA else st.ownerOf t } := by
  unfold NFTState.safeMint at h
  split at h
  next hz => exact absurd h (by simp)
  next hz =>
    split at h
    next heq => exact absurd h (by simp)
    next prev st3 heq =>
      split at h
      next hp => exact absurd h (by simp)
      next hp =>
        obtain ⟨hc, hprev, hst⟩ := NFTState.updateToken_some heq
        have hown : st.ownerOf tokenId = 0 := by
          rcases Decidable.not_and_iff_or_not.mp hc with h1 | h1
          · exact of_not_not h1
          · exact absurd hz (by simpa using h1)
        exact ⟨hz, hown, by rw [← Option.some.inj h, hst]⟩

theorem NFTState.burn_inv {st st2 : NFTState} {tokenId : Nat}
    (h : st.burn tokenId = some st2) :
    st.ownerOf tokenId ≠ 0 ∧
      st2 = { st with ownerOf := fun t => if t = tokenId then 0 else st.ownerOf t } := by
  unfold NFTState.burn at h
  split at h
  next heq => exact absurd h (by simp)
  next prev st3 heq =>
    split at h
    next hp => exact absurd h (by simp)
    next hp =>
      obtain ⟨hc, hprev, hst⟩ := NFTState.updateToken_some heq
      subst hprev
      exact ⟨hp, by rw [← Option.some.inj h, hst]⟩

theorem NFTState.addMemberInternal_inv {st st4 : NFTState} {account : Addr}
    (h : st.addMemberInternal account = some st4) :
    account ≠ 0 ∧ st.isMember account = false ∧
      st4.memberCount = st.memberCount + 1 ∧
      st4.owner = st.owner ∧ st4.kernel = st.kernel ∧
      (∀ b, st4.isMember b = if b = account then true else st.isMember b) ∧
      st4.memberVotes account = st.memberVotes account + 1 ∧
      (∀ b, b ≠ account → st4.memberVotes b = st.memberVotes b) := by
  unfold NFTState.addMemberInternal at h
  split at h
  next hz => exact absurd h (by simp)
  next hz =>
  split at h
  next hm => exact absurd h (by simp)
  next hm =>
  simp only [Option.bind_eq_some] at h
  obtain ⟨st2, heq, v, hcp, tv, hcp2, h⟩ := h
  obtain ⟨hmz, hown, rfl⟩ := NFTState.safeMint_inv heq
  obtain rfl := (Option.some.inj h).symm
  refine ⟨hz, by simpa using hm, by simp, by simp, by simp, ?_, ?_, ?_⟩
  · intro b
    by_cases hb : b = account <;> simp [hb]
  · have hv := writeCheckpoint_plusOne hcp
    simp at hv
    simp [hv]
  · intro b hb
    simp [hb]

theorem NFTState.removeMember_inv {st st4 : NFTState} {caller account : Addr}
    (h : st.removeMember caller account = some st4) :
    caller = st.owner ∧ st.isMember account = true ∧
      1 ≤ st.memberVotes account ∧
      (∀ b, st4.isMember b = if b = account then false else st.isMember b) ∧
      st4.memberVotes account = st.memberVotes account - 1 ∧
      (∀ b, b ≠ account → st4.memberVotes b = st.memberVotes b) := by
  unfold NFTState.removeMember at h
  split at h
  next hc =>
    split at h
    next hm =>
      split at h
      next h0 => exact absurd h (by simp)
      next h0 =>
        simp only [Option.bind_eq_some] at h
        obtain ⟨st2, heq, v, hcp, tv, hcp2, h⟩ := h
        obtain ⟨hbz, rfl⟩ := NFTState.burn_inv heq
        obtain rfl := (Option.some.inj h).symm
        obtain ⟨hge, hv⟩ := writeCheckpoint_minusOne hcp
        refine ⟨hc, hm, ?_, ?_, ?_, ?_⟩
        · simpa using hge
        · intro b
          by_cases hb : b = account <;> simp [hb]
        · simp at hv
          simp [hv]
        · intro b hb
          simp [hb]
    next hm => exact absurd h (by simp)
  next hc => exact absurd h (by simp)

theorem NFTState.addMembers_inv {ms : List Addr} : ∀ {st st4 : NFTState},
    NFTState.addMembers st ms = some st4 →
    st4.memberCount = st.memberCount + ms.length ∧
      st4.owner = st.owner ∧ st4.kernel = st.kernel ∧
      (∀ a, st.isMember a = true → st4.isMember a = true) ∧
      (∀ a, a ∈ ms → st4.isMember a = true) := by
  induction ms with
  | nil =>
    intro st st4 h
    simp only [NFTState.addMembers] at h
    obtain rfl := (Option.some.inj h).symm
    exact ⟨by simp, rfl, rfl, fun a ha => ha, by simp⟩
  | cons a rest ih =>
    intro st st4 h
    simp only [NFTState.addMembers, Option.bind_eq_some] at h
    obtain ⟨st2, h1, h2⟩ := h
    obtain ⟨_, _, hcount, howner, hkernel, hmem, _, _⟩ := NFTState.addMemberInternal_inv h1
    obtain ⟨ihc, iho, ihk, ihpres, ihmem⟩ := ih h2
    refine ⟨?_, by rw [iho, howner], by rw [ihk, hkernel], ?_, ?_⟩
    · rw [ihc, hcount]
      simp [Nat.add_assoc, Nat.add_comm 1]
    · intro b hb
      apply ihpres
      rw [hmem b]
      by_cases hba : b = a
      · simp [hba]
      · simp [hba, hb]
    · intro b hb
      rcases List.mem_cons.mp hb with rfl | hb2
      · exact ihpres b (by rw [hmem b]; simp)
      · exact ihmem b hb2

theorem membershipInitialize_inv {admin : Addr} {ms : List Addr} {st : NFTState}
    (h : membershipInitialize admin ms = some st) :
    admin ≠ 0 ∧ st.owner = admin ∧ st.kernel = 0 ∧ st.memberCount = ms.length ∧
      (∀ a, a ∈ ms → st.isMember a = true) := by
  unfold membershipInitialize at h
  split at h
  next hz => exact absurd h (by simp)
  next hz =>
    obtain ⟨hc, ho, hk, _, hmem⟩ := NFTState.addMembers_inv h
    exact ⟨hz, by rw [ho], by rw [hk], by rw [hc]; simp, hmem⟩

theorem initialMembersWithCaller_some {caller : Addr} {l ms : List Addr}
    (h : initialMembersWithCaller caller l = some ms) :
    (0 : Addr) ∉ l ∧ ((caller ∈ l ∧ ms = l) ∨ (caller ∉ l ∧ ms = caller :: l)) := by
  unfold initialMembersWithCaller at h
  split at h
  next hz => exact absurd h (by simp)
  next hz =>
    have h0 : (0 : Addr) ∉ l := by
      simp only [List.any_eq_true, beq_iff_eq] at hz
      intro hmem
      exact hz ⟨0, hmem, rfl⟩
    split at h
    next hcm =>
      simp only [List.any_eq_true, beq_iff_eq] at hcm
      obtain ⟨x, hx, rfl⟩ := hcm
      exact ⟨h0, Or.inl ⟨hx, (Option.some.inj h).symm⟩⟩
    next hcm =>
      have hnc : caller ∉ l := by
        simp only [List.any_eq_true, beq_iff_eq] at hcm
        intro hmem
        exact hcm ⟨caller, hmem, rfl⟩
      exact ⟨h0, Or.inr ⟨hnc, (Option.some.inj h).symm⟩⟩

theorem wireNFT_inv {nft0 nftF : NFTState} {factory tlAddr kerAddr : Addr}
    (h : wireNFT nft0 factory tlAddr kerAddr = some nftF) :
    factory = nft0.owner ∧ kerAddr ≠ 0 ∧ tlAddr ≠ 0 ∧
      nftF = { nft0 with kernel := kerAddr, owner := tlAddr } := by
  unfold wireNFT at h
  simp only [Option.bind_eq_some] at h
  obtain ⟨nft1, h1, h2⟩ := h
  obtain ⟨hown, hk, rfl⟩ := nftSetKernel_inv h1
  obtain ⟨hown2, ht, rfl⟩ := nftTransferOwnership_inv h2
  exact ⟨hown, hk, ht, rfl⟩

theorem wireTreasury_inv {tre0 treF : TreasuryState} {factory tlAddr kerAddr : Addr}
    (h : wireTreasury tre0 factory tlAddr kerAddr = some treF) :
    factory = tre0.owner ∧ kerAddr ≠ 0 ∧ tlAddr ≠ 0 ∧
      treF = { tre0 with kernel := kerAddr, owner := tlAddr } := by
  unfold wireTreasury at h
  simp only [Option.bind_eq_some] at h
  obtain ⟨tre1, h1, h2⟩ := h
  obtain ⟨hown, hk, rfl⟩ := treSetKernel_inv h1
  obtain ⟨hown2, ht, rfl⟩ := treTransferOwnership_inv h2
  exact ⟨hown, hk, ht, rfl⟩

theorem wireGovernor_inv {gov0 govF : GovernorState} {factory tlAddr kerAddr : Addr}
    (h : wireGovernor gov0 factory tlAddr kerAddr = some govF) :
    factory = gov0.owner ∧ kerAddr ≠ 0 ∧ tlAddr ≠ 0 ∧
      govF = { gov0 with kernel := kerAddr, owner := tlAddr } := by
  unfold wireGovernor at h
  simp only [Option.bind_eq_some] at h
  obtain ⟨gov1, h1, h2⟩ := h
  obtain ⟨hown, hk, rfl⟩ := govSetKernel_inv h1
  obtain ⟨hown2, ht, rfl⟩ := govTransferOwnership_inv h2
  exact ⟨hown, hk, ht, rfl⟩

theorem wireTimelock_inv {tl0 tlF : TimelockState}
    {factory caller tlAddr govAddr kerAddr : Addr}
    (h : wireTimelock tl0 factory caller tlAddr govAddr kerAddr = some tlF) :
    factory = tl0.owner ∧ kerAddr ≠ 0 ∧ tlAddr ≠ 0 ∧
      tlF.minDelay = tl0.minDelay ∧ tlF.owner = tlAddr ∧ tlF.kernel = kerAddr ∧
      (∀ r a, tlF.roles r a =
        revokeRoleMap (grantRoleMap (grantRoleMap (grantRoleMap tl0.roles
          .proposer govAddr) .executor 0) .defaultAdmin tlAddr)
          .defaultAdmin caller r a) := by
  unfold wireTimelock at h
  simp only [Option.bind_eq_some] at h
  obtain ⟨tl1, h1, tl2, h2, tl3, h3, tl4, h4, tl5, h5, h6⟩ := h
  obtain ⟨hown, hk, rfl⟩ := tlSetKernel_inv h1
  obtain ⟨hadm1, rfl⟩ := tlGrantRole_inv h2
  obtain ⟨hadm2, rfl⟩ := tlGrantRole_inv h3
  obtain ⟨hadm3, rfl⟩ := tlGrantRole_inv h4
  obtain ⟨hown2, ht, rfl⟩ := tlTransferOwnership_inv h5
  obtain ⟨hadm4, rfl⟩ := tlRevokeRole_inv h6
  exact ⟨hown, hk, ht, rfl, rfl, rfl, fun r a => rfl⟩

theorem deployDao_inv {factory caller : Addr} {minDelaySeconds : Nat}
    {ims : List Addr} {tlA nftA treA govA kerA : Addr} {res : DeployResult}
    (h : deployDao factory caller minDelaySeconds ims tlA nftA treA govA kerA = some res) :
    ∃ ms nft0,
      initialMembersWithCaller caller ims = some ms ∧
      membershipInitialize factory ms = some nft0 ∧
      factory ≠ 0 ∧ tlA ≠ 0 ∧ nftA ≠ 0 ∧ treA ≠ 0 ∧ govA ≠ 0 ∧ kerA ≠ 0 ∧
      res.tl = tlA ∧ res.nft = nftA ∧ res.governor = govA ∧
      res.treasury = treA ∧ res.kernel = kerA ∧
      res.nftState.memberCount = nft0.memberCount ∧
      (∀ a, res.nftState.isMember a = nft0.isMember a) ∧
      res.nftState.owner = tlA ∧ res.nftState.kernel = kerA ∧
      (∀ r a, res.tlState.roles r a =
        revokeRoleMap (grantRoleMap (grantRoleMap (grantRoleMap
          (timelockInitialize tlA minDelaySeconds [] [] factory).roles
          .proposer govA) .executor 0) .defaultAdmin tlA)
          .defaultAdmin caller r a) ∧
      res.kernelState.modules MODULE_TIMELOCK = tlA ∧
      res.kernelState.modules MODULE_GOVERNOR = govA ∧
      res.kernelState.modules MODULE_TOKEN = nftA ∧
      res.kernelState.modules MODULE_TREASURY = treA ∧
      res.events = [FactoryEvent.daoGenesis tlA nftA govA treA kerA] := by
  unfold deployDao at h
  simp only [Option.bind_eq_some] at h
  obtain ⟨ms, hms, nft0, hnft, tre0, htre0, gov0, hgov0, ker0, hker0,
    tlF, htlF, nftF, hnftF, treF, htreF, govF, hgovF, hfin⟩ := h
  obtain rfl := (Option.some.inj hfin).symm
  obtain ⟨hfz, hnowner, hnkernel, hncount, hnmem⟩ := membershipInitialize_inv hnft
  obtain ⟨hk1, hk2, hk3, hk4, hk5, hmod1, hmod2, hmod3, hmod4⟩ := kernelInitialize_inv hker0
  obtain ⟨hto, hkz, htz, hmd, howF, hkerF, hroles⟩ := wireTimelock_inv htlF
  obtain ⟨hno, hkz2, htz2, rfl⟩ := wireNFT_inv hnftF
  exact ⟨ms, nft0, hms, hnft, hfz, hk1, hk3, hk4, hk2, hkz,
    rfl, rfl, rfl, rfl, rfl, rfl, fun a => rfl, rfl, rfl, hroles,
    hmod1, hmod2, hmod3, hmod4, rfl⟩

theorem rolesAfterDeploy_iff {factory caller tlA govA : Addr} {d : Nat}
    (hf : factory ≠ 0) (r : TLRole) (a : Addr) :
    (revokeRoleMap (grantRoleMap (grantRoleMap (grantRoleMap
      (timelockInitialize tlA d [] [] factory).roles .proposer govA)
      .executor 0) .defaultAdmin tlA) .defaultAdmin caller r a = true) ↔
    (match r with
     | .proposer => a = govA
     | .canceller => False
     | .executor => a = 0
     | .defaultAdmin => a ≠ caller ∧ (a = tlA ∨ a = factory)) := by
  cases r
  · by_cases hg : a = govA <;>
      simp [revokeRoleMap, grantRoleMap, timelockInitialize, hg]
  · by_cases h0 : a = 0 <;>
      simp [revokeRoleMap, grantRoleMap, timelockInitialize, h0]
  · simp [revokeRoleMap, grantRoleMap, timelockInitialize]
  · by_cases hc : a = caller <;> by_cases ht : a = tlA <;> by_cases hfa : a = factory <;>
      simp [revokeRoleMap, grantRoleMap, timelockInitialize, hf, hc, ht, hfa]

theorem NFTState.addMembers_none_of_mem {a : Addr} : ∀ {ms : List Addr} {st : NFTState},
    st.isMember a = true → a ∈ ms → NFTState.addMembers st ms = none := by
  intro ms
  induction ms with
  | nil =>
    intro st hm hmem
    simp at hmem
  | cons b rest ih =>
    intro st hm hmem
    simp only [NFTState.addMembers]
    cases heq : st.addMemberInternal b with
    | none => simp
    | some st2 =>
      rw [Option.some_bind]
      obtain ⟨_, hmnot, _, _, _, hmem2, _, _⟩ := NFTState.addMemberInternal_inv heq
      rcases List.mem_cons.mp hmem with rfl | hrest
      · rw [hmnot] at hm
        cases hm
      · refine ih ?_ hrest
        rw [hmem2 a]
        by_cases hab : a = b
        · simp [hab]
        · simp [hab, hm]

theorem NFTState.addMembers_none_dup {a : Addr} {l2 l3 : List Addr} :
    ∀ (l1 : List Addr) (st : NFTState),
    NFTState.addMembers st (l1 ++ a :: l2 ++ a :: l3) = none := by
  intro l1
  induction l1 with
  | nil =>
    intro st
    simp only [List.nil_append, NFTState.addMembers]
    cases heq : st.addMemberInternal a with
    | none => simp
    | some st2 =>
      rw [Option.some_bind]
      obtain ⟨_, _, _, _, _, hmem2, _, _⟩ := NFTState.addMemberInternal_inv heq
      exact NFTState.addMembers_none_of_mem (by rw [hmem2 a]; simp) (by simp)
  | cons b rest ih =>
    intro st
    simp only [List.cons_append, NFTState.addMembers]
    cases heq : st.addMemberInternal b with
    | none => simp
    | some st2 =>
      rw [Option.some_bind]
      exact ih st2

theorem membershipInitialize_none_dup {admin a : Addr} {l1 l2 l3 : List Addr} :
    membershipInitialize admin (l1 ++ a :: l2 ++ a :: l3) = none := by
  unfold membershipInitialize
  split
  · rfl
  · exact NFTState.addMembers_none_dup l1 _

theorem rolesAfter_proposer {factory caller tlA govA : Addr} {d : Nat}
    (hf : factory ≠ 0) (a : Addr) :
    (revokeRoleMap (grantRoleMap (grantRoleMap (grantRoleMap
      (timelockInitialize tlA d [] [] factory).roles .proposer govA)
      .executor 0) .defaultAdmin tlA) .defaultAdmin caller .proposer a = true) ↔
      a = govA :=
  rolesAfterDeploy_iff hf .proposer a

theorem rolesAfter_executor {factory caller tlA govA : Addr} {d : Nat}
    (hf : factory ≠ 0) (a : Addr) :
    (revokeRoleMap (grantRoleMap (grantRoleMap (grantRoleMap
      (timelockInitialize tlA d [] [] factory).roles .proposer govA)
      .executor 0) .defaultAdmin tlA) .defaultAdmin caller .executor a = true) ↔
      a = 0 :=
  rolesAfterDeploy_iff hf .executor a

theorem rolesAfter_canceller {factory caller tlA govA : Addr} {d : Nat}
    (hf : factory ≠ 0) (a : Addr) :
    revokeRoleMap (grantRoleMap (grantRoleMap (grantRoleMap
      (timelockInitialize tlA d [] [] factory).roles .proposer govA)
      .executor 0) .defaultAdmin tlA) .defaultAdmin caller .canceller a = false :=
  Bool.eq_false_iff.mpr fun hx => (rolesAfterDeploy_iff hf .canceller a).mp hx

theorem rolesAfter_defaultAdmin {factory caller tlA govA : Addr} {d : Nat}
    (hf : factory ≠ 0) (a : Addr) :
    (revokeRoleMap (grantRoleMap (grantRoleMap (grantRoleMap
      (timelockInitialize tlA d [] [] factory).roles .proposer govA)
      .executor 0) .defaultAdmin tlA) .defaultAdmin caller .defaultAdmin a = true) ↔
      (a ≠ caller ∧ (a = tlA ∨ a = factory)) :=
  rolesAfterDeploy_iff hf .defaultAdmin a

/-- The spec invariant on voting weights: every member holds exactly one vote,
every non-member zero votes. -/
def votesInvariant (st : NFTState) : Prop :=
  ∀ a, st.getVotes a = if st.isMember a = true then 1 else 0

theorem votesInvariant_addMemberInternal {st st2 : NFTState} {account : Addr}
    (hinv : votesInvariant st) (h : st.addMemberInternal account = some st2) :
    votesInvariant st2 := by
  obtain ⟨hz, hm, _, _, _, hmem, hvacc, hvoth⟩ := NFTState.addMemberInternal_inv h
  intro b
  unfold NFTState.getVotes
  by_cases hb : b = account
  · subst hb
    have h0 := hinv b
    unfold NFTState.getVotes at h0
    rw [hm] at h0
    simp at h0
    rw [hvacc, h0, hmem b]
    simp
  · have h0 := hinv b
    unfold NFTState.getVotes at h0
    rw [hvoth b hb, hmem b]
    simp [hb]
    simpa using h0

theorem votesInvariant_removeMemberApplied {st st2 : NFTState} {caller account : Addr}
    (hinv : votesInvariant st) (h : st.removeMember caller account = some st2) :
    votesInvariant st2 := by
  obtain ⟨hc, hm, hge, hmem, hvacc, hvoth⟩ := NFTState.removeMember_inv h
  intro b
  unfold NFTState.getVotes
  by_cases hb : b = account
  · subst hb
    have h0 := hinv b
    unfold NFTState.getVotes at h0
    rw [hm] at h0
    simp at h0
    rw [hvacc, h0, hmem b]
    simp
  · have h0 := hinv b
    unfold NFTState.getVotes at h0
    rw [hvoth b hb, hmem b]
    simp [hb]
    simpa using h0

theorem votesInvariant_addMembers {ms : List Addr} : ∀ {st st2 : NFTState},
    votesInvariant st → NFTState.addMembers st ms = some st2 → votesInvariant st2 := by
  induction ms with
  | nil =>
    intro st st2 hinv h
    simp only [NFTState.addMembers] at h
    obtain rfl := (Option.some.inj h).symm
    exact hinv
  | cons a rest ih =>
    intro st st2 hinv h
    simp only [NFTState.addMembers, Option.bind_eq_some] at h
    obtain ⟨st3, h1, h2⟩ := h
    exact ih (votesInvariant_addMemberInternal hinv h1) h2

theorem votesInvariant_initialize {admin : Addr} {ms : List Addr} {st : NFTState}
    (h : membershipInitialize admin ms = some st) : votesInvariant st := by
  unfold membershipInitialize at h
  split at h
  next hz => exact absurd h (by simp)
  next hz =>
    refine votesInvariant_addMembers ?_ h
    intro a
    simp [NFTState.getVotes]

/-- The all-zero timelock storage, used only as the `Option.getD` default of
concrete demonstration states. -/
def zeroTimelockState : TimelockState :=
  { minDelay := 0, roles := fun _ _ => false, owner := 0, kernel := 0 }

/-- The all-zero membership storage, used only as the `Option.getD` default of
concrete demonstration states. -/
def zeroNFTState : NFTState :=
  { nextId := 0, memberCount := 0, isMember := fun _ => false,
    tokenIdOf := fun _ => 0, memberVotes := fun _ => 0, totalVotes := 0,
    ownerOf := fun _ => 0, owner := 0, kernel := 0 }

/-- The all-zero deployment result, used only as the `Option.getD` default of
concrete demonstration states. -/
def zeroDeployResult : DeployResult :=
  { tl := 0, nft := 0, governor := 0, treasury := 0, kernel := 0,
    tlState := zeroTimelockState, nftState := zeroNFTState,
    treasuryState := { owner := 0, kernel := 0 },
    governorState := { owner := 0, kernel := 0, votesToken := 0, timelock := 0 },
    kernelState := { modules := fun _ => 0, owner := 0 },
    events := [] }

/-! ## The claims -/

/-- The timelock access table exactly as the spec describes it after genesis:
the governor is the only proposer, the zero address the only executor, the
timelock itself the only admin, and the deployer holds no admin rights. -/
def timelockTableExact (res : DeployResult) (govA tlA deployer : Addr) : Prop :=
  (∀ a, res.tlState.roles .proposer a = true ↔ a = govA) ∧
  (∀ a, res.tlState.roles .executor a = true ↔ a = 0) ∧
  (∀ a, res.tlState.roles .defaultAdmin a = true ↔ a = tlA) ∧
  res.tlState.roles .defaultAdmin deployer = false

/-- Claim C1 as stated: after every successful `deployDao`, the timelock
access table is exactly proposer = governor, executor = zero address,
admin = the timelock alone, and the deployer without admin rights. -/
def claimOneStatement : Prop :=
  ∀ (factory caller : Addr) (minDelaySeconds : Nat) (ims : List Addr)
    (tlA nftA treA govA kerA : Addr) (res : DeployResult),
    deployDao factory caller minDelaySeconds ims tlA nftA treA govA kerA = some res →
    timelockTableExact res govA tlA caller

/-- Concrete run refuting C1: factory address 1, caller 2, fresh proxies 3-7. -/
def demoRes1 : DeployResult := (deployDao 1 2 0 [] 3 4 5 6 7).getD zeroDeployResult

/-- Claim C1 is false as stated: in the concrete deployment of `demoRes1` the
factory contract (address 1, distinct from the timelock at address 3) still
holds `DEFAULT_ADMIN_ROLE`, so the admin entry of the table is not the
timelock alone. -/
theorem claimOne_counterexample : ¬ claimOneStatement := by
  intro h
  have hd : deployDao 1 2 0 [] 3 4 5 6 7 = some demoRes1 := rfl
  have htab := h 1 2 0 [] 3 4 5 6 7 demoRes1 hd
  have hadmin : demoRes1.tlState.roles .defaultAdmin 1 = true := rfl
  have h13 := (htab.2.2.1 1).mp hadmin
  exact absurd h13 (by decide)

/-- Claim C1, amended: after every successful `deployDao` by a caller other
than the factory and the timelock proxy, the timelock access table is exactly
proposer = governor, executor = zero address, canceller = nobody, and
admin = the timelock itself together with the factory; the deployer holds no
admin rights. -/
theorem claimOne_amended (factory caller : Addr) (minDelaySeconds : Nat)
    (ims : List Addr) (tlA nftA treA govA kerA : Addr) (res : DeployResult)
    (h : deployDao factory caller minDelaySeconds ims tlA nftA treA govA kerA = some res)
    (hcf : caller ≠ factory) (hct : caller ≠ tlA) :
    (∀ a, res.tlState.roles .proposer a = true ↔ a = govA) ∧
    (∀ a, res.tlState.roles .executor a = true ↔ a = 0) ∧
    (∀ a, res.tlState.roles .canceller a = false) ∧
    (∀ a, res.tlState.roles .defaultAdmin a = true ↔ (a = tlA ∨ a = factory)) ∧
    res.tlState.roles .defaultAdmin caller = false := by
  obtain ⟨ms, nft0, hms, hnft, hfz, htlz, hnfz, htrz, hgvz, hkrz, htl, hnfta,
    hgov, htre, hker, hcount, hmemeq, hnown, hnker, hroles,
    hm1, hm2, hm3, hm4, hev⟩ := deployDao_inv h
  refine ⟨?_, ?_, ?_, ?_, ?_⟩
  · intro a
    rw [hroles .proposer a]
    exact rolesAfter_proposer hfz a
  · intro a
    rw [hroles .executor a]
    exact rolesAfter_executor hfz a
  · intro a
    rw [hroles .canceller a]
    exact rolesAfter_canceller hfz a
  · intro a
    rw [hroles .defaultAdmin a, rolesAfter_defaultAdmin hfz a]
    constructor
    · rintro ⟨_, hor⟩
      exact hor
    · intro hor
      refine ⟨?_, hor⟩
      rcases hor with rfl | rfl
      · exact fun hh => hct hh.symm
      · exact fun hh => hcf hh.symm
  · rw [hroles .defaultAdmin caller]
    refine Bool.eq_false_iff.mpr fun hx => ?_
    obtain ⟨hne, _⟩ := (rolesAfter_defaultAdmin hfz caller).mp hx
    exact hne rfl

/-- Witness for the amended C1 at the concrete deployment `demoRes1`. -/
theorem claimOne_amended_witness :
    deployDao 1 2 0 [] 3 4 5 6 7 = some demoRes1 ∧
    demoRes1.tlState.roles .defaultAdmin 2 = false ∧
    (∀ a, demoRes1.tlState.roles .defaultAdmin a = true ↔ (a = 3 ∨ a = 1)) := by
  have h := claimOne_amended 1 2 0 [] 3 4 5 6 7 demoRes1 rfl (by decide) (by decide)
  exact ⟨rfl, h.2.2.2.2, h.2.2.2.1⟩

/-- Concrete run witnessing C2: factory address 1, caller 2, fresh proxies 3-7. -/
def demoRes2 : DeployResult := (deployDao 1 2 0 [] 3 4 5 6 7).getD zeroDeployResult

/-- Claim C2: after every successful `deployDao` whose caller is not the
factory itself, the factory contract still holds `DEFAULT_ADMIN_ROLE` on the
deployed timelock — the initializer made the factory admin and the closing
`revokeRole` removes the role only from the caller. -/
theorem claimTwo_factory_keeps_admin (factory caller : Addr) (minDelaySeconds : Nat)
    (ims : List Addr) (tlA nftA treA govA kerA : Addr) (res : DeployResult)
    (h : deployDao factory caller minDelaySeconds ims tlA nftA treA govA kerA = some res)
    (hcf : caller ≠ factory) :
    res.tlState.roles .defaultAdmin factory = true := by
  obtain ⟨ms, nft0, hms, hnft, hfz, htlz, hnfz, htrz, hgvz, hkrz, htl, hnfta,
    hgov, htre, hker, hcount, hmemeq, hnown, hnker, hroles,
    hm1, hm2, hm3, hm4, hev⟩ := deployDao_inv h
  rw [hroles .defaultAdmin factory]
  exact (rolesAfter_defaultAdmin hfz factory).mpr
    ⟨fun hh => hcf hh.symm, Or.inr rfl⟩

/-- Witness for C2 at the concrete deployment `demoRes2`. -/
theorem claimTwo_witness :
    deployDao 1 2 0 [] 3 4 5 6 7 = some demoRes2 ∧
    demoRes2.tlState.roles .defaultAdmin 1 = true :=
  ⟨rfl, claimTwo_factory_keeps_admin 1 2 0 [] 3 4 5 6 7 demoRes2 rfl (by decide)⟩

/-- Claim C3: for every list of non-zero member addresses, the effective
member list is the caller followed by the supplied members when the caller is
absent from the list, and the supplied list unchanged when the caller occurs
in it. -/
theorem claimThree_member_list (caller : Addr) (ims : List Addr)
    (h0 : (0 : Addr) ∉ ims) :
    (caller ∉ ims → initialMembersWithCaller caller ims = some (caller :: ims)) ∧
    (caller ∈ ims → initialMembersWithCaller caller ims = some ims) := by
  have hz : ims.any (fun m => m == 0) = false := by
    rw [List.any_eq_false]
    intro x hx
    simp only [beq_iff_eq]
    intro hx0
    exact h0 (hx0 ▸ hx)
  constructor
  · intro hnc
    have hcm : ims.any (fun m => m == caller) = false := by
      rw [List.any_eq_false]
      intro x hx
      simp only [beq_iff_eq]
      intro hxc
      exact hnc (hxc ▸ hx)
    simp [initialMembersWithCaller, hz, hcm]
  · intro hc
    have hcm : ims.any (fun m => m == caller) = true := by
      simp only [List.any_eq_true, beq_iff_eq]
      exact ⟨caller, hc, rfl⟩
    simp [initialMembersWithCaller, hz, hcm]

/-- Witness for C3: caller 2 is prepended to `[9]` and left off `[9, 2]`. -/
theorem claimThree_witness :
    initialMembersWithCaller 2 [9] = some [2, 9] ∧
    initialMembersWithCaller 2 [9, 2] = some [9, 2] :=
  ⟨(claimThree_member_list 2 [9] (by decide)).1 (by decide),
   (claimThree_member_list 2 [9, 2] (by decide)).2 (by decide)⟩

/-- Claim C4: every successful `deployDao` whose member list omits the caller
produces a membership set of size `len(initialMembers) + 1` containing the
caller, and one whose member list contains the caller produces a membership
set of size `len(initialMembers)`. -/
theorem claimFour_member_count (factory caller : Addr) (minDelaySeconds : Nat)
    (ims : List Addr) (tlA nftA treA govA kerA : Addr) (res : DeployResult)
    (h : deployDao factory caller minDelaySeconds ims tlA nftA treA govA kerA = some res) :
    (ims ≠ [] → caller ∉ ims →
      res.nftState.memberCount = ims.length + 1 ∧
      res.nftState.isMember caller = true) ∧
    (caller ∈ ims → res.nftState.memberCount = ims.length) := by
  obtain ⟨ms, nft0, hms, hnft, hfz, htlz, hnfz, htrz, hgvz, hkrz, htl, hnfta,
    hgov, htre, hker, hcount, hmemeq, hnown, hnker, hroles,
    hm1, hm2, hm3, hm4, hev⟩ := deployDao_inv h
  obtain ⟨h0, hcase⟩ := initialMembersWithCaller_some hms
  obtain ⟨_, _, _, hncount, hnmem⟩ := membershipInitialize_inv hnft
  constructor
  · intro hne hnc
    rcases hcase with ⟨hin, rfl⟩ | ⟨hnin, rfl⟩
    · exact absurd hin hnc
    · constructor
      · rw [hcount, hncount]
        simp
      · rw [hmemeq caller]
        exact hnmem caller (by simp)
  · intro hc
    rcases hcase with ⟨hin, rfl⟩ | ⟨hnin, rfl⟩
    · rw [hcount, hncount]
    · exact absurd hc hnin

/-- Concrete run witnessing C4. -/
def demoRes4 : DeployResult := (deployDao 1 2 0 [9] 3 4 5 6 7).getD zeroDeployResult

/-- Witness for C4: deploying with `[9]` from caller 2 yields two members
including the caller. -/
theorem claimFour_witness :
    deployDao 1 2 0 [9] 3 4 5 6 7 = some demoRes4 ∧
    demoRes4.nftState.memberCount = 2 ∧
    demoRes4.nftState.isMember 2 = true := by
  have h := (claimFour_member_count 1 2 0 [9] 3 4 5 6 7 demoRes4 rfl).1
    (by decide) (by decide)
  exact ⟨rfl, h.1, h.2⟩

/-- Claim C5: a zero address anywhere in `initialMembers` makes the whole
`deployDao` call revert; no deployment, role grant or event survives (`none`
is the reverted transaction, which leaves no state behind). -/
theorem claimFive_zero_member_reverts (factory caller : Addr) (minDelaySeconds : Nat)
    (ims : List Addr) (tlA nftA treA govA kerA : Addr)
    (h0 : (0 : Addr) ∈ ims) :
    deployDao factory caller minDelaySeconds ims tlA nftA treA govA kerA = none := by
  have hz : ims.any (fun m => m == 0) = true := by
    simp only [List.any_eq_true, beq_iff_eq]
    exact ⟨0, h0, rfl⟩
  have hnone : initialMembersWithCaller caller ims = none := by
    simp [initialMembersWithCaller, hz]
  simp [deployDao, hnone]

/-- Witness for C5 at the concrete list `[0]`. -/
theorem claimFive_witness :
    (0 : Addr) ∈ ([0] : List Addr) ∧ deployDao 1 2 0 [0] 3 4 5 6 7 = none :=
  ⟨by decide, claimFive_zero_member_reverts 1 2 0 [0] 3 4 5 6 7 (by decide)⟩

/-- Claim C6: after every successful `deployDao`, the kernel registry records
exactly the returned proxy addresses under the four module tags. -/
theorem claimSix_kernel_registry (factory caller : Addr) (minDelaySeconds : Nat)
    (ims : List Addr) (tlA nftA treA govA kerA : Addr) (res : DeployResult)
    (h : deployDao factory caller minDelaySeconds ims tlA nftA treA govA kerA = some res) :
    res.kernelState.modules MODULE_TIMELOCK = res.tl ∧
    res.kernelState.modules MODULE_GOVERNOR = res.governor ∧
    res.kernelState.modules MODULE_TOKEN = res.nft ∧
    res.kernelState.modules MODULE_TREASURY = res.treasury := by
  obtain ⟨ms, nft0, hms, hnft, hfz, htlz, hnfz, htrz, hgvz, hkrz, htl, hnfta,
    hgov, htre, hker, hcount, hmemeq, hnown, hnker, hroles,
    hm1, hm2, hm3, hm4, hev⟩ := deployDao_inv h
  exact ⟨by rw [hm1, htl], by rw [hm2, hgov], by rw [hm3, hnfta], by rw [hm4, htre]⟩

/-- Concrete run witnessing C6. -/
def demoRes6 : DeployResult := (deployDao 1 2 0 [] 3 4 5 6 7).getD zeroDeployResult

/-- Witness for C6 at the concrete deployment `demoRes6`. -/
theorem claimSix_witness :
    deployDao 1 2 0 [] 3 4 5 6 7 = some demoRes6 ∧
    demoRes6.kernelState.modules MODULE_TIMELOCK = demoRes6.tl ∧
    demoRes6.kernelState.modules MODULE_GOVERNOR = demoRes6.governor ∧
    demoRes6.kernelState.modules MODULE_TOKEN = demoRes6.nft ∧
    demoRes6.kernelState.modules MODULE_TREASURY = demoRes6.treasury := by
  have h := claimSix_kernel_registry 1 2 0 [] 3 4 5 6 7 demoRes6 rfl
  exact ⟨rfl, h.1, h.2.1, h.2.2.1, h.2.2.2⟩

/-- Claim C7: the membership badge is soulbound.  `_update` reverts whenever a
token would move between two non-zero addresses (so the failed call leaves
every storage slot unchanged), `transferFrom` between non-zero addresses
always reverts, and a successful `_update` is necessarily a mint (previous
owner zero) or a burn (receiver zero). -/
theorem claimSeven_soulbound (st : NFTState) (toA : Addr) (tokenId : Nat)
    (auth : Addr) :
    (st.ownerOf tokenId ≠ 0 → toA ≠ 0 → st.updateToken toA tokenId auth = none) ∧
    (∀ fro, fro ≠ 0 → toA ≠ 0 → st.transferFrom auth fro toA tokenId = none) ∧
    (∀ prev st2, st.updateToken toA tokenId auth = some (prev, st2) →
      prev = 0 ∨ toA = 0) := by
  refine ⟨?_, ?_, ?_⟩
  · intro hf ht
    unfold NFTState.updateToken
    rw [if_pos ⟨hf, ht⟩]
  · intro fro hf ht
    unfold NFTState.transferFrom
    rw [if_neg ht]
    cases heq : st.updateToken toA tokenId auth with
    | none => simp
    | some p =>
      obtain ⟨prev, st2⟩ := p
      obtain ⟨hc, hprev, _⟩ := NFTState.updateToken_some heq
      have hprev0 : prev = 0 := by
        rcases Decidable.not_and_iff_or_not.mp hc with h1 | h1
        · rw [hprev]
          exact of_not_not h1
        · exact absurd ht h1
      have hpf : prev ≠ fro := by
        rw [hprev0]
        exact fun hh => hf hh.symm
      simp [hpf]
  · intro prev st2 heq
    obtain ⟨hc, hprev, _⟩ := NFTState.updateToken_some heq
    by_cases ht : toA = 0
    · exact Or.inr ht
    · left
      rcases Decidable.not_and_iff_or_not.mp hc with h1 | h1
      · rw [hprev]
        exact of_not_not h1
      · exact absurd ht (by simpa using h1)

/-- Concrete one-member state witnessing C7 (member 2 owns token 1). -/
def demoSt7 : NFTState := (membershipInitialize 1 [2]).getD zeroNFTState

/-- Witness for C7: in the concrete state `demoSt7`, moving token 1 from its
owner (address 2) to address 9 reverts through both entry points. -/
theorem claimSeven_witness :
    demoSt7.updateToken 9 1 2 = none ∧ demoSt7.transferFrom 2 2 9 1 = none :=
  ⟨(claimSeven_soulbound demoSt7 9 1 2).1 (by decide) (by decide),
   (claimSeven_soulbound demoSt7 9 1 2).2.1 2 (by decide) (by decide)⟩

/-- Claim C8: the voting invariant — one vote per member, zero otherwise — is
established by the initializer and preserved by `addMember` and
`removeMember`; `delegates` always answers the zero address and both
delegation entry points always revert. -/
theorem claimEight_votes :
    (∀ (admin : Addr) (ms : List Addr) (st : NFTState),
      membershipInitialize admin ms = some st → votesInvariant st) ∧
    (∀ (st : NFTState) (caller account : Addr) (st2 : NFTState),
      votesInvariant st → st.addMember caller account = some st2 →
      votesInvariant st2) ∧
    (∀ (st : NFTState) (caller account : Addr) (st2 : NFTState),
      votesInvariant st → st.removeMember caller account = some st2 →
      votesInvariant st2) ∧
    (∀ (st : NFTState) (a : Addr), st.delegates a = 0) ∧
    (∀ (st : NFTState) (d2 : Addr), st.delegate d2 = none) ∧
    (∀ st : NFTState, st.delegateBySig = none) := by
  refine ⟨?_, ?_, ?_, fun st a => rfl, fun st d2 => rfl, fun st => rfl⟩
  · intro admin ms st h
    exact votesInvariant_initialize h
  · intro st caller account st2 hinv h
    unfold NFTState.addMember at h
    split at h
    next hc => exact votesInvariant_addMemberInternal hinv h
    next hc => exact absurd h (by simp)
  · intro st caller account st2 hinv h
    exact votesInvariant_removeMemberApplied hinv h

/-- Concrete membership state for the C8 witness. -/
def demoSt8 : NFTState := (membershipInitialize 1 [2]).getD zeroNFTState

/-- Concrete state after `addMember` for the C8 witness. -/
def demoSt8b : NFTState := (demoSt8.addMember 1 5).getD zeroNFTState

/-- Witness for C8: the invariant holds after initializing with member 2 and
is preserved when the owner adds member 5; the new member holds one vote and
delegation stays disabled. -/
theorem claimEight_witness :
    membershipInitialize 1 [2] = some demoSt8 ∧
    demoSt8.addMember 1 5 = some demoSt8b ∧
    votesInvariant demoSt8b ∧
    demoSt8b.getVotes 5 = 1 ∧ demoSt8b.getVotes 9 = 0 ∧
    demoSt8b.delegates 2 = 0 ∧ demoSt8b.delegate 9 = none :=
  ⟨rfl, rfl,
   claimEight_votes.2.1 demoSt8 1 5 demoSt8b
     (claimEight_votes.1 1 [2] demoSt8 rfl) rfl,
   rfl, rfl, rfl, rfl⟩

/-- Claim C9: a non-zero address occurring twice in `initialMembers` aborts
the whole deployment — the membership initializer refuses the second mint, so
duplicates are neither tolerated nor deduplicated. -/
theorem claimNine_duplicate_reverts (factory caller : Addr) (minDelaySeconds : Nat)
    (l1 l2 l3 : List Addr) (a : Addr) (tlA nftA treA govA kerA : Addr)
    (_ha : a ≠ 0) :
    deployDao factory caller minDelaySeconds (l1 ++ a :: l2 ++ a :: l3)
      tlA nftA treA govA kerA = none := by
  cases him : initialMembersWithCaller caller (l1 ++ a :: l2 ++ a :: l3) with
  | none =>
    unfold deployDao
    rw [him]
    simp
  | some ms =>
    obtain ⟨h0, hcase⟩ := initialMembersWithCaller_some him
    have hnone : membershipInitialize factory ms = none := by
      rcases hcase with ⟨hin, rfl⟩ | ⟨hnin, rfl⟩
      · exact membershipInitialize_none_dup
      · have he : caller :: (l1 ++ a :: l2 ++ a :: l3) =
            (caller :: l1) ++ a :: l2 ++ a :: l3 := rfl
        rw [he]
        exact membershipInitialize_none_dup
    unfold deployDao
    rw [him]
    simp [hnone]

/-- Witness for C9 at the concrete duplicate list `[9, 9]`. -/
theorem claimNine_witness :
    (9 : Addr) ≠ 0 ∧ deployDao 1 2 0 [9, 9] 3 4 5 6 7 = none :=
  ⟨by decide, claimNine_duplicate_reverts 1 2 0 [] [] [] 9 3 4 5 6 7 (by decide)⟩

/-- Claim C10: every successful `deployDao` emits exactly one event of the
factory, `DaoGenesis`, carrying precisely the five returned proxy addresses. -/
theorem claimTen_single_event (factory caller : Addr) (minDelaySeconds : Nat)
    (ims : List Addr) (tlA nftA treA govA kerA : Addr) (res : DeployResult)
    (h : deployDao factory caller minDelaySeconds ims tlA nftA treA govA kerA = some res) :
    res.events =
      [FactoryEvent.daoGenesis res.tl res.nft res.governor res.treasury res.kernel] := by
  obtain ⟨ms, nft0, hms, hnft, hfz, htlz, hnfz, htrz, hgvz, hkrz, htl, hnfta,
    hgov, htre, hker, hcount, hmemeq, hnown, hnker, hroles,
    hm1, hm2, hm3, hm4, hev⟩ := deployDao_inv h
  rw [hev, htl, hnfta, hgov, htre, hker]

/-- Concrete run witnessing C10. -/
def demoRes10 : DeployResult := (deployDao 1 2 0 [] 3 4 5 6 7).getD zeroDeployResult

/-- Witness for C10 at the concrete deployment `demoRes10`. -/
theorem claimTen_witness :
    deployDao 1 2 0 [] 3 4 5 6 7 = some demoRes10 ∧
    demoRes10.events =
      [FactoryEvent.daoGenesis demoRes10.tl demoRes10.nft demoRes10.governor
        demoRes10.treasury demoRes10.kernel] :=
  ⟨rfl, claimTen_single_event 1 2 0 [] 3 4 5 6 7 demoRes10 rfl⟩
